import Mathlib

/-!
# Verification of the web-synth real-time DSP core

Shallow embedding, over exact rationals, of the parts of the repository's
audio engine that the specification makes claims about:

* `CircularBuffer` (`src/engine/dsp/src/circular_buffer.rs`)
* `compute_higher_order_biquad_q_factors` (`src/engine/dsp/src/filters/biquad.rs`)
* the ADSR envelope generator (`src/engine/adsr/src/lib.rs`)
* the per-band `Compressor` (`src/engine/compressor/src/lib.rs`)
* the `MoogFilter` nonlinear ladder effect
  (`src/engine/wavetable/src/fm/effects/moog.rs`)

`f32` arithmetic is idealised as exact rational arithmetic.  Transcendental
kernels that the engine takes from its `dsp`/`fastapprox` support crates
(`tanh`, `sqrt`, `20·log10`, `10^(x/20)`, `cos`) are passed in as explicit
function parameters of type `ℚ → ℚ`, so every definition stays executable
and every structural statement is proved for all instantiations of those
kernels.
-/

/-- The value of `std::f32::consts::PI` (the IEEE-754 single-precision
rounding of π), as an exact rational: `13176795 / 2^22`. -/
def pi32 : ℚ := 13176795 / 4194304

/-- The Moog ladder thermal-voltage constant `VT = 0.312` from
`moog.rs`. -/
def moogVT : ℚ := 312 / 1000

/-- Truncation toward zero, the semantics of Rust's `f32::trunc`. -/
def ratTrunc (q : ℚ) : ℚ := if 0 ≤ q then (⌊q⌋ : ℚ) else (⌈q⌉ : ℚ)

/-- Modelled from the spec: `dsp::mix(t, v1, v2)` weights `v1` by `t` and
`v2` by `1 − t` (§4.1 describes `read_interpolated` as weighting the base
sample by `1−|frac|` and the next sample by `|frac|`, and it calls
`mix(1−|frac|, base, next)`; the `dsp` crate root is not under `src/`). -/
def mix (t a b : ℚ) : ℚ := t * a + (1 - t) * b

/-- Modelled from the spec: `dsp::clamp(min, max, v)` restricts `v` to
`[min, max]` (§4.8 "Clamp cutoff ∈ [1, 22100], resonance ∈ [0, 20]"; the
`dsp` crate root is not under `src/`). -/
def clamp (lo hi x : ℚ) : ℚ := if x < lo then lo else if hi < x then hi else x

/-! ## CircularBuffer (`src/engine/dsp/src/circular_buffer.rs`)

The buffer contents are modelled as a total function `ℕ → ℚ` together with
the capacity `size` (the const generic `LENGTH`) and the `head` index.
`get` first computes the intermediate index `(head + ix) % (LENGTH - 1)`
with Rust's truncated `%` on `isize` (Lean's `Int.tmod`), then remaps a
negative remainder by adding `LENGTH`; `rawIx`/`finalIx` expose those two
stages so that in-bounds facts can be stated about the actual array index
used. -/

structure CircularBuffer where
  size : ℕ
  buffer : ℕ → ℚ
  head : ℕ

/-- `CircularBuffer::new()`: all slots zero, `head = 0`. -/
def CircularBuffer.new (n : ℕ) : CircularBuffer :=
  { size := n, buffer := fun _ => 0, head := 0 }

/-- `CircularBuffer::set`: pre-increment `head` with wrap at `LENGTH`,
then store at the new `head`. -/
def CircularBuffer.set (cb : CircularBuffer) (v : ℚ) : CircularBuffer :=
  let h := if cb.head + 1 ≥ cb.size then 0 else cb.head + 1
  { cb with head := h, buffer := fun j => if j = h then v else cb.buffer j }

/-- The intermediate index of `CircularBuffer::get`:
`(head as isize + ix) % ((LENGTH - 1) as isize)` with truncated `%`. -/
def CircularBuffer.rawIx (cb : CircularBuffer) (ix : ℤ) : ℤ :=
  Int.tmod ((cb.head : ℤ) + ix) ((cb.size : ℤ) - 1)

/-- The final array index of `CircularBuffer::get`: the intermediate index
itself when non-negative, otherwise remapped by adding `LENGTH`. -/
def CircularBuffer.finalIx (cb : CircularBuffer) (ix : ℤ) : ℤ :=
  if 0 ≤ cb.rawIx ix then cb.rawIx ix else (cb.size : ℤ) + cb.rawIx ix

/-- `CircularBuffer::get`. -/
def CircularBuffer.get (cb : CircularBuffer) (ix : ℤ) : ℚ :=
  cb.buffer (cb.finalIx ix).toNat

/-- Negating the dividend negates Rust's truncated remainder. -/
theorem Int_neg_tmod (a b : ℤ) : (-a).tmod b = -(a.tmod b) := by
  rw [Int.tmod_def, Int.tmod_def, Int.neg_tdiv]
  ring

/-- The truncated remainder by a positive modulus lies strictly between
`-b` and `b`. -/
theorem tmod_bounds (a : ℤ) {b : ℤ} (hb : 0 < b) :
    -b < a.tmod b ∧ a.tmod b < b := by
  rcases le_or_lt 0 a with ha | ha
  · have h1 := Int.tmod_nonneg b ha
    have h2 := Int.tmod_lt_of_pos a hb
    omega
  · have ha' : 0 ≤ -a := by omega
    have h1 := Int.tmod_nonneg b ha'
    have h2 := Int.tmod_lt_of_pos (-a) hb
    rw [Int_neg_tmod] at h1 h2
    omega

/-- The read index as the spec's words describe it (§4.1): the remainder
`(head + i) mod (N−1)` (truncated `mod`, whose remainder takes the sign of
the dividend), with a negative remainder remapped to a positive array index
by adding `N`.  Stated separately from `CircularBuffer.finalIx` so that the
refinement claim C5 compares the code's index against the spec's. -/
def specGetIndex (n headIdx : ℕ) (i : ℤ) : ℤ :=
  if Int.tmod ((headIdx : ℤ) + i) ((n : ℤ) - 1) < 0
  then Int.tmod ((headIdx : ℤ) + i) ((n : ℤ) - 1) + (n : ℤ)
  else Int.tmod ((headIdx : ℤ) + i) ((n : ℤ) - 1)

/-- The buffer of claim C2: a fresh `CircularBuffer` with `N = 4` after
`set(a); set(b); set(c)`. -/
def c2Buffer (a b c : ℚ) : CircularBuffer :=
  ((((CircularBuffer.new 4).set a).set b).set c)

/-- C2 (counterexample): after `set(1); set(2); set(3)` on a fresh `N = 4`
buffer, `get(0)` returns `0` (the never-written slot `0`), not the last
value `3` that the claim predicts: the head is `3` and the intermediate
index is `(3 + 0) % (4 − 1) = 0`. -/
theorem C2_roundtrip_cex :
    (c2Buffer 1 2 3).get 0 = 0 ∧ (c2Buffer 1 2 3).get 0 ≠ 3 := by
  decide

/-- C2 (amended): after `set(a); set(b); set(c)` on a fresh `N = 4` buffer,
`get(0)` returns `0.0` — the untouched slot `0`, an artifact of the
`mod (N−1)` indexing once `head = 3` — while `get(-1) = b` and
`get(-2) = a` hold as the claim states. -/
theorem C2_roundtrip_amended (a b c : ℚ) :
    (c2Buffer a b c).get 0 = 0 ∧
    (c2Buffer a b c).get (-1) = b ∧
    (c2Buffer a b c).get (-2) = a := by
  refine ⟨?_, ?_, ?_⟩ <;>
    simp [c2Buffer, CircularBuffer.new, CircularBuffer.set, CircularBuffer.get,
      CircularBuffer.finalIx, CircularBuffer.rawIx,
      (by decide : Int.tmod 3 3 = 0), (by decide : Int.tmod 2 3 = 2),
      (by decide : Int.tmod 1 3 = 1)]

/-- C5: for every head in `[0, N)` and non-positive index `i`,
`CircularBuffer::get(i)` returns the slot at the index the spec describes:
`(head + i) mod (N−1)` (truncated remainder), remapped by adding `N` (not
`N−1`) when the remainder is negative. -/
theorem C5_get_matches_spec_index (cb : CircularBuffer) (i : ℤ)
    (hhead : cb.head < cb.size) (hi : i ≤ 0) :
    cb.get i = cb.buffer (specGetIndex cb.size cb.head i).toNat := by
  have h : cb.finalIx i = specGetIndex cb.size cb.head i := by
    unfold CircularBuffer.finalIx CircularBuffer.rawIx specGetIndex
    rcases le_or_lt 0 (Int.tmod ((cb.head : ℤ) + i) ((cb.size : ℤ) - 1)) with h | h
    · rw [if_pos h, if_neg (by omega)]
    · rw [if_neg (by omega), if_pos h]
      ring
  rw [CircularBuffer.get, h]

/-- C5 witness: concrete instance with `N = 4`, `head = 3`, `i = -2`. -/
theorem C5_get_matches_spec_index_witness :
    (c2Buffer 1 2 3).head < (c2Buffer 1 2 3).size ∧
    (c2Buffer 1 2 3).get (-2) =
      (c2Buffer 1 2 3).buffer
        (specGetIndex (c2Buffer 1 2 3).size (c2Buffer 1 2 3).head (-2)).toNat :=
  ⟨by decide, C5_get_matches_spec_index (c2Buffer 1 2 3) (-2) (by decide) (by decide)⟩

/-- C10: `CircularBuffer::get` is in-bounds for every non-positive index
`i`, however large its magnitude: the intermediate truncated remainder lies
strictly between `-(N-1)` and `N-1`, and after the negative branch adds
`N` the final array index always lies in `[0, N)`.  In particular every
read of the compressor's fixed 5800-sample detection loops (offsets
`-5800 - 128 + j + k` with `j < 128`, `k < 5800`) over the 2205-slot
lookahead rings is a non-positive offset and hence lands in `[0, 2205)`. -/
theorem C10_get_always_in_bounds :
    (∀ (cb : CircularBuffer) (i : ℤ), 2 ≤ cb.size → i ≤ 0 →
      (-((cb.size : ℤ) - 1) < cb.rawIx i ∧ cb.rawIx i < (cb.size : ℤ) - 1) ∧
      0 ≤ cb.finalIx i ∧ cb.finalIx i < (cb.size : ℤ)) ∧
    (∀ (cb : CircularBuffer) (j k : ℕ), cb.size = 2205 → j < 128 → k < 5800 →
      0 ≤ cb.finalIx (-5800 - 128 + (j : ℤ) + (k : ℤ)) ∧
      cb.finalIx (-5800 - 128 + (j : ℤ) + (k : ℤ)) < 2205) := by
  have main : ∀ (cb : CircularBuffer) (i : ℤ), 2 ≤ cb.size →
      (-((cb.size : ℤ) - 1) < cb.rawIx i ∧ cb.rawIx i < (cb.size : ℤ) - 1) ∧
      0 ≤ cb.finalIx i ∧ cb.finalIx i < (cb.size : ℤ) := by
    intro cb i hsize
    have hpos : (0 : ℤ) < (cb.size : ℤ) - 1 := by
      have : (2 : ℤ) ≤ (cb.size : ℤ) := by exact_mod_cast hsize
      omega
    have hb := tmod_bounds ((cb.head : ℤ) + i) hpos
    unfold CircularBuffer.finalIx
    unfold CircularBuffer.rawIx at hb ⊢
    constructor
    · exact hb
    · split <;> omega
  constructor
  · intro cb i hsize _
    exact main cb i hsize
  · intro cb j k hsize hj hk
    have := (main cb (-5800 - 128 + (j : ℤ) + (k : ℤ)) (by omega)).2
    omega

/-- C10 witness: a concrete 2205-slot ring read far outside one capacity,
and a concrete detection-loop read. -/
theorem C10_get_always_in_bounds_witness :
    (0 ≤ (CircularBuffer.new 2205).finalIx (-6000) ∧
      (CircularBuffer.new 2205).finalIx (-6000) < 2205) ∧
    (0 ≤ (CircularBuffer.new 2205).finalIx (-5800 - 128 + (5 : ℤ) + (17 : ℤ)) ∧
      (CircularBuffer.new 2205).finalIx (-5800 - 128 + (5 : ℤ) + (17 : ℤ)) < 2205) :=
  ⟨by
    have h := (C10_get_always_in_bounds.1 (CircularBuffer.new 2205) (-6000)
      (by decide) (by decide))
    exact h.2,
   C10_get_always_in_bounds.2 (CircularBuffer.new 2205) 5 17 rfl
     (by decide) (by decide)⟩

/-! ## ADSR envelope (`src/engine/adsr/src/lib.rs`)

`RENDERED_BUFFER_SIZE = SAMPLE_RATE = 44_100`, `FRAME_SIZE = 128`.  The
`Exponential` ramper calls `dsp::even_faster_pow`, whose source is not
under `src/`; the power kernel is therefore passed in as a parameter
`powQ`.  None of the claims exercises the `Exponential` branch. -/

inductive RampFn where
  | Instant : RampFn
  | Linear : RampFn
  | Exponential : ℚ → RampFn
deriving DecidableEq

structure AdsrStep where
  x : ℚ
  y : ℚ
  ramper : RampFn
deriving DecidableEq

/-- `DEFAULT_FIRST_STEP`: `(x=0, y=0, Instant)`. -/
def defaultFirstStep : AdsrStep := { x := 0, y := 0, ramper := .Instant }

/-- `compute_pos(prev_step, next_step, phase)`. -/
def computePos (powQ : ℚ → ℚ → ℚ) (prevStep nextStep : AdsrStep) (phase : ℚ) : ℚ :=
  match nextStep.ramper with
  | .Instant => prevStep.y
  | .Linear =>
    prevStep.y + ((phase - prevStep.x) / (nextStep.x - prevStep.x)) * (nextStep.y - prevStep.y)
  | .Exponential exponent =>
    prevStep.y + powQ ((phase - prevStep.x) / (nextStep.x - prevStep.x)) exponent
      * (nextStep.y - prevStep.y)

/-- The inner `while` of `Adsr::render`: advance `(prev, next_ix)` through
the step list while the next step starts strictly before `phase`. -/
def renderWalk (steps : List AdsrStep) (phase : ℚ) (prevStep : Option AdsrStep)
    (nextIx : ℕ) : Option AdsrStep × ℕ :=
  match h : steps.get? nextIx with
  | none => (prevStep, nextIx)
  | some nextStep =>
    if phase ≤ nextStep.x then (prevStep, nextIx)
    else renderWalk steps phase (some nextStep) (nextIx + 1)
termination_by steps.length - nextIx
decreasing_by
  have hlen : nextIx < steps.length := by
    rcases List.get?_eq_some.mp h with ⟨h1, _⟩
    exact h1
  omega

/-- The body of `Adsr::render` from index `i` on: one table entry per
index, with `phase = i / RENDERED_BUFFER_SIZE` and the `(prev, next_ix)`
walk state carried across indices. -/
def renderGo (powQ : ℚ → ℚ → ℚ) (steps : List AdsrStep) (bufSize : ℕ)
    (prevStep : Option AdsrStep) (nextIx : ℕ) (i : ℕ) : List ℚ :=
  if i < bufSize then
    let phase : ℚ := (i : ℚ) / (bufSize : ℚ)
    let w := renderWalk steps phase prevStep nextIx
    let entry :=
      match steps.get? w.2 with
      | some nextStep => computePos powQ (w.1.getD defaultFirstStep) nextStep phase
      | none => (w.1.map AdsrStep.y).getD 0
    entry :: renderGo powQ steps bufSize w.1 w.2 (i + 1)
  else []
termination_by bufSize - i
decreasing_by omega

/-- `Adsr::render`: fill the 44,100-entry shared table. -/
def adsrRender (powQ : ℚ → ℚ → ℚ) (steps : List AdsrStep) : List ℚ :=
  renderGo powQ steps 44100 none 0 0

/-- The step list of claim C3: `[(0,0,Instant), (1,1,Linear)]`. -/
def c3Steps : List AdsrStep :=
  [{ x := 0, y := 0, ramper := .Instant }, { x := 1, y := 1, ramper := .Linear }]

/-- Once the walk sits at `(prev = step 0, next_ix = 1)` of `c3Steps`, it
stays there for every phase `≤ 1` (the next step starts at `x = 1`). -/
theorem walk_steady (phase : ℚ) (h : phase ≤ 1) :
    renderWalk c3Steps phase (some ⟨0, 0, .Instant⟩) 1 = (some ⟨0, 0, .Instant⟩, 1) := by
  rw [renderWalk]
  simp [c3Steps]
  intro hc
  linarith

/-- From the initial walk state, any strictly positive phase `≤ 1` advances
the walk past step 0 to `(some step0, 1)`. -/
theorem walk_start (phase : ℚ) (h0 : 0 < phase) (h1 : phase ≤ 1) :
    renderWalk c3Steps phase none 0 = (some ⟨0, 0, .Instant⟩, 1) := by
  rw [renderWalk]
  simp [c3Steps, show ¬ phase ≤ 0 by linarith]
  rw [renderWalk]
  simp [c3Steps]
  intro hc
  linarith

/-- At phase `0` the walk does not advance. -/
theorem walk_zero :
    renderWalk c3Steps 0 none 0 = (none, 0) := by
  rw [renderWalk]
  simp [c3Steps]

/-- Head entry of the steady-state render tail: the `Linear` ramp from
`(0,0)` to `(1,1)` evaluates to the phase itself, `i / 44100`. -/
theorem rg_zero (powQ : ℚ → ℚ → ℚ) (i : ℕ) (hi : 1 ≤ i) (h : i < 44100) :
    (renderGo powQ c3Steps 44100 (some ⟨0, 0, .Instant⟩) 1 i).get? 0 =
      some (((i : ℚ)) / 44100) := by
  have hp1 : ((i : ℚ) / 44100) ≤ 1 := by
    rw [div_le_one (by norm_num)]
    exact_mod_cast (by omega : i ≤ 44100)
  rw [renderGo, if_pos h]
  simp only [Nat.cast_ofNat]
  rw [walk_steady _ hp1]
  simp only [c3Steps, List.get?_cons_succ, List.get?_cons_zero, computePos, Option.getD_some,
    List.get?]
  norm_num

/-- Closed form of the render tail from any index `i ≥ 1` in the
steady walk state: entry `i + j` is `(i + j) / 44100`. -/
theorem renderGo_tail (powQ : ℚ → ℚ → ℚ) (j : ℕ) : ∀ i : ℕ, 1 ≤ i →
    (renderGo powQ c3Steps 44100 (some ⟨0, 0, .Instant⟩) 1 i).get? j =
      if i + j < 44100 then some (((i + j : ℕ) : ℚ) / 44100) else none := by
  induction j with
  | zero =>
    intro i hi
    by_cases h : i < 44100
    · rw [if_pos (by omega)]
      have := rg_zero powQ i hi h
      simpa using this
    · rw [renderGo, if_neg h, if_neg (by omega)]
      simp
  | succ j ih =>
    intro i hi
    by_cases h : i < 44100
    · have hp1 : ((i : ℚ) / 44100) ≤ 1 := by
        rw [div_le_one (by norm_num)]
        exact_mod_cast (by omega : i ≤ 44100)
      rw [renderGo, if_pos h]
      simp only [Nat.cast_ofNat]
      rw [walk_steady _ hp1]
      show (_ :: renderGo powQ c3Steps 44100 (some ⟨0, 0, .Instant⟩) 1 (i + 1)).get? (j + 1) = _
      rw [List.get?_cons_succ, ih (i + 1) (by omega)]
      have hidx : i + 1 + j = i + (j + 1) := by omega
      rw [hidx]
    · rw [renderGo, if_neg h, if_neg (by omega)]
      simp

/-- The first tail step of the render (index 1) coincides with the
steady-state tail: the walk advances from `(none, 0)` to `(some step0, 1)`
and produces the same entry. -/
theorem rg_bridge (powQ : ℚ → ℚ → ℚ) :
    renderGo powQ c3Steps 44100 none 0 1 =
      renderGo powQ c3Steps 44100 (some ⟨0, 0, .Instant⟩) 1 1 := by
  rw [renderGo, renderGo]
  simp only [Nat.cast_ofNat, Nat.cast_one]
  rw [walk_start _ (by norm_num) (by norm_num), walk_steady _ (by norm_num)]

/-- Closed form of the rendered table for the C3 step list: entry `i` is
exactly `i / 44100` (the code uses `phase = i / RENDERED_BUFFER_SIZE`,
i.e. division by `N`, not by `N − 1`). -/
theorem adsrRender_get (powQ : ℚ → ℚ → ℚ) (i : ℕ) (h : i < 44100) :
    (adsrRender powQ c3Steps).get? i = some ((i : ℚ) / 44100) := by
  unfold adsrRender
  rw [renderGo, if_pos (by norm_num : (0 : ℕ) < 44100)]
  simp only [Nat.cast_ofNat, Nat.cast_zero, zero_div]
  rw [walk_zero]
  match i with
  | 0 =>
    simp [c3Steps, computePos, defaultFirstStep]
  | (k + 1) =>
    rw [List.get?_cons_succ, rg_bridge, renderGo_tail powQ k 1 (le_refl 1),
      if_pos (by omega)]
    congr 1
    push_cast
    ring

/-- C3 (counterexample): `Adsr::render` computes `phase = i / N`, not
`i / (N−1)`.  At index `44099` the rendered sample is `44099 / 44100`,
which differs from the claimed value `44099 / (44100 − 1) = 1` by
`1 / 44100 ≈ 2.27e-5 > 1e-6`. -/
theorem C3_render_cex :
    (adsrRender (fun x _ => x) c3Steps).get? 44099 = some ((44099 : ℚ) / 44100) ∧
    ¬ |((44099 : ℚ) / 44100) - (44099 : ℚ) / (44100 - 1)| ≤ 1 / 1000000 := by
  constructor
  · exact adsrRender_get _ 44099 (by norm_num)
  · norm_num [abs_le]

/-- C3 (amended): with steps `[(0,0,Instant),(1,1,Linear)]` (and any power
kernel, unused here), the rendered table entry at index `i` is exactly
`i / N` with `N = 44100` (in exact arithmetic), so the table is
monotonically nondecreasing starting at `0`, and it agrees with the
claimed `i / (N−1)` only within `1 / 44100 ≈ 2.27e-5` — not within
`1e-6` at every index. -/
theorem C3_render_amended (powQ : ℚ → ℚ → ℚ) :
    (∀ i : ℕ, i < 44100 →
      (adsrRender powQ c3Steps).get? i = some ((i : ℚ) / 44100)) ∧
    (∀ i j : ℕ, i ≤ j → j < 44100 →
      ((adsrRender powQ c3Steps).get? i).getD 0 ≤
        ((adsrRender powQ c3Steps).get? j).getD 0) ∧
    (∀ i : ℕ, i < 44100 →
      |((adsrRender powQ c3Steps).get? i).getD 0 - (i : ℚ) / (44100 - 1)| ≤ 1 / 44100) := by
  refine ⟨fun i h => adsrRender_get powQ i h, fun i j hij hj => ?_, fun i h => ?_⟩
  · rw [adsrRender_get powQ i (by omega), adsrRender_get powQ j hj]
    simp only [Option.getD_some]
    gcongr
  · rw [adsrRender_get powQ i h]
    simp only [Option.getD_some]
    have hi : (i : ℚ) ≤ 44099 := by exact_mod_cast (by omega : i ≤ 44099)
    have hi0 : (0 : ℚ) ≤ (i : ℚ) := by positivity
    have hval : (i : ℚ) / 44100 - (i : ℚ) / (44100 - 1) = -(i / 1944765900) := by
      norm_num
      ring
    rw [hval, abs_neg, abs_of_nonneg (by positivity)]
    calc (i : ℚ) / 1944765900 ≤ 44099 / 1944765900 := by gcongr
    _ = 1 / 44100 := by norm_num

/-- C3 witness: the amended closed form evaluated at index `2`, and the
monotonicity instance `(table 2) ≤ (table 3)`. -/
theorem C3_render_amended_witness :
    (adsrRender (fun x _ => x) c3Steps).get? 2 = some ((2 : ℚ) / 44100) ∧
    ((adsrRender (fun x _ => x) c3Steps).get? 2).getD 0 ≤
      ((adsrRender (fun x _ => x) c3Steps).get? 3).getD 0 :=
  ⟨(C3_render_amended (fun x _ => x)).1 2 (by norm_num),
   (C3_render_amended (fun x _ => x)).2.1 2 3 (by norm_num) (by norm_num)⟩

/-- The sign function on ℚ, mirroring `f32::signum` on nonzero inputs. -/
def ratSignum (q : ℚ) : ℚ := if 0 < q then 1 else if q < 0 then -1 else 0

/-- Modelled from the spec: the `dsp` crate's slice `read_interpolated`
(§4.5 "Return `read_interpolated(rendered, phase · (N−2))`", with the
interpolation rule of §4.1: base sample at `trunc(f)` weighted by
`1−|frac(f)|`, neighbour at `trunc(f)+sign(f)` weighted by `|frac(f)|`;
`f = 0` short-circuits to the slot itself).  The `dsp` crate root is not
under `src/`. -/
def readInterpolated (buf : ℕ → ℚ) (sampleIx : ℚ) : ℚ :=
  if sampleIx = 0 then buf 0
  else
    let base := ratTrunc sampleIx
    let frac := |sampleIx - base|
    mix (1 - frac) (buf base.num.toNat) (buf (base + ratSignum sampleIx).num.toNat)

inductive GateStatus where
  | Gated : GateStatus
  | GatedFrozen : GateStatus
  | Releasing : GateStatus
  | Done : GateStatus
deriving DecidableEq

/-- The dynamic state of an `Adsr` (the shared rendered table is carried
as a read-only function; the UI telemetry cell `store_phase_to` is
omitted). -/
structure Adsr where
  phase : ℚ
  gateStatus : GateStatus
  releaseStartPhase : ℚ
  steps : List AdsrStep
  loopPoint : Option ℚ
  rendered : ℕ → ℚ
  curFrameOutput : List ℚ
  lenSamples : ℚ
  cachedPhaseDiffPerSample : ℚ

/-- `Adsr::gate`. -/
def Adsr.gate (a : Adsr) : Adsr := { a with phase := 0, gateStatus := .Gated }

/-- `Adsr::ungate`. -/
def Adsr.ungate (a : Adsr) : Adsr :=
  { a with phase := a.releaseStartPhase, gateStatus := .Releasing }

/-- `Adsr::advance_phase`: add one sample's phase delta (clamped to 1);
on crossing the release point while `Gated`, rewrap to the loop point via
`loop_start + trunc(overflow / loop_size)` when a loop point exists, else
clamp to the release point. -/
def Adsr.advancePhase (a : Adsr) : Adsr :=
  let p := min (a.phase + a.cachedPhaseDiffPerSample) 1
  if a.gateStatus = .Gated ∧ a.releaseStartPhase ≤ p then
    match a.loopPoint with
    | some loopStart =>
      let overflowAmount := p - a.releaseStartPhase
      let loopSize := a.releaseStartPhase - loopStart
      { a with phase := loopStart + ratTrunc (overflowAmount / loopSize) }
    | none => { a with phase := a.releaseStartPhase }
  else { a with phase := p }

/-- `Adsr::get_sample`: advance the phase, then read the shared table at
`phase · (RENDERED_BUFFER_SIZE − 2)`. -/
def Adsr.getSample (a : Adsr) : Adsr × ℚ :=
  let a2 := a.advancePhase
  (a2, readInterpolated a2.rendered (a2.phase * (44100 - 2)))

/-- The 128-iteration output loop at the bottom of `Adsr::render_frame`:
returns the final state and the frame contents. -/
def Adsr.renderLoop : Adsr → ℕ → Adsr × List ℚ
  | a, 0 => (a, [])
  | a, n + 1 =>
    let s := a.getSample
    let rest := Adsr.renderLoop s.1 n
    (rest.1, s.2 :: rest.2)

/-- `Adsr::render_frame`, with the source's four `match` arms (two of them
guarded) rendered as guard-style conditionals: the `Gated`-with-guard arm
freezes and returns early; the `Releasing`-with-guard arm pre-fills the
buffer and sets `Done` but has no `return` in the source, so it falls
through to the output loop, which immediately overwrites the pre-fill; the
`GatedFrozen`/`Done` arm returns unchanged; every remaining case runs the
128-sample output loop. -/
def Adsr.renderFrame (a : Adsr) : Adsr :=
  if a.gateStatus = .Gated ∧ a.loopPoint = none ∧ a.releaseStartPhase ≤ a.phase then
    let s := a.getSample
    { s.1 with curFrameOutput := List.replicate 128 s.2, gateStatus := .GatedFrozen }
  else if a.gateStatus = .Releasing ∧ 1 ≤ a.phase then
    let a2 := { a with
      curFrameOutput := List.replicate 128 (a.rendered (44100 - 1)),
      gateStatus := .Done }
    let r := a2.renderLoop 128
    { r.1 with curFrameOutput := r.2 }
  else if a.gateStatus = .GatedFrozen ∨ a.gateStatus = .Done then a
  else
    let r := a.renderLoop 128
    { r.1 with curFrameOutput := r.2 }

/-- The `Adsr` of claim C7: freshly gated, `release_start_phase = 1/2`,
`loop_point = 1/4`, phase delta `d` per sample. -/
def c7Adsr (d : ℚ) : Adsr :=
  { phase := 0
    gateStatus := .Gated
    releaseStartPhase := 1/2
    steps := c3Steps
    loopPoint := some (1/4)
    rendered := fun _ => 0
    curFrameOutput := List.replicate 128 0
    lenSamples := 1/d
    cachedPhaseDiffPerSample := d }

/-- The pure phase recurrence that `advance_phase` implements on the C7
configuration (`Gated`, `release_start_phase = 1/2`,
`loop_point = some 1/4`, delta `d`). -/
def c7next (d p : ℚ) : ℚ :=
  if (1:ℚ)/2 ≤ min (p + d) 1 then 1/4 + ratTrunc ((min (p + d) 1 - 1/2) / (1/2 - 1/4))
  else min (p + d) 1

/-- Iterating `get_sample` on the C7 configuration only moves the phase,
along the pure recurrence `c7next`. -/
theorem c7_phase_bridge (d : ℚ) (n : ℕ) :
    (fun st => (Adsr.getSample st).1)^[n] (c7Adsr d) =
      { c7Adsr d with phase := (c7next d)^[n] 0 } := by
  induction n with
  | zero => rfl
  | succ n ih =>
    rw [Function.iterate_succ_apply', Function.iterate_succ_apply', ih]
    show ({ c7Adsr d with phase := (c7next d)^[n] 0 } : Adsr).advancePhase = _
    unfold Adsr.advancePhase c7next
    simp only [c7Adsr]
    split
    · rename_i h
      rw [if_pos h.2]
    · rename_i h
      rw [if_neg (fun hc => h ⟨trivial, hc⟩)]

/-- One `c7next` step from a phase below the release point: either a plain
advance, or a rewrap to exactly the loop point `1/4` (the `trunc` term is
`0` because the overflow is below one `loop_size`). -/
theorem c7next_val (d p : ℚ) (hd4 : d ≤ 1/4) (hp : p < 1/2) :
    c7next d p = if 1/2 ≤ p + d then 1/4 else p + d := by
  unfold c7next
  rw [min_eq_left (by linarith)]
  by_cases h : (1:ℚ)/2 ≤ p + d
  · rw [if_pos h, if_pos h]
    have h0 : (0:ℚ) ≤ (p + d - 1/2) / (1/2 - 1/4) := by
      apply div_nonneg <;> linarith
    have h1 : (p + d - 1/2) / (1/2 - 1/4) < 1 := by
      rw [div_lt_one (by norm_num)]
      linarith
    rw [ratTrunc, if_pos h0]
    have hf : ⌊(p + d - 1/2) / (1/2 - 1/4)⌋ = 0 := Int.floor_eq_zero_iff.mpr ⟨h0, h1⟩
    rw [hf]
    norm_num
  · rw [if_neg h, if_neg h]

/-- Invariant of the C7 phase recurrence (for `0 < d ≤ loop_size`): the
phase stays in `[0, 1/2)`, equals `n·d` before the release point is
crossed, and stays at or above the loop point `1/4` afterwards. -/
theorem c7next_iter (d : ℚ) (hd0 : 0 < d) (hd4 : d ≤ 1/4) (n : ℕ) :
    0 ≤ (c7next d)^[n] 0 ∧ (c7next d)^[n] 0 < 1/2 ∧
    ((n : ℚ) * d < 1/2 → (c7next d)^[n] 0 = n * d) ∧
    (1/2 ≤ (n : ℚ) * d → 1/4 ≤ (c7next d)^[n] 0) := by
  induction n with
  | zero =>
    refine ⟨le_refl 0, by norm_num, fun _ => by simp, fun hc => ?_⟩
    exfalso
    simp at hc
    linarith
  | succ n ih =>
    obtain ⟨h0, h2, heq, hge⟩ := ih
    rw [Function.iterate_succ_apply', c7next_val d _ hd4 h2]
    have hcast : ((n + 1 : ℕ) : ℚ) * d = (n : ℚ) * d + d := by
      push_cast
      ring
    by_cases h : (1:ℚ)/2 ≤ (c7next d)^[n] 0 + d
    · rw [if_pos h]
      refine ⟨by norm_num, by norm_num, fun hlt => ?_, fun _ => le_refl _⟩
      exfalso
      rcases lt_or_le ((n : ℚ) * d) (1/2) with hc | hc
      · rw [heq hc] at h
        rw [hcast] at hlt
        linarith
      · rw [hcast] at hlt
        linarith
    · rw [if_neg h]
      push_neg at h
      refine ⟨by linarith, h, fun hlt => ?_, fun hge2 => ?_⟩
      · rw [hcast] at hlt
        have hn : (n : ℚ) * d < 1/2 := by linarith
        rw [heq hn, hcast]
      · rcases lt_or_le ((n : ℚ) * d) (1/2) with hc | hc
        · exfalso
          rw [heq hc] at h
          rw [hcast] at hge2
          linarith
        · have := hge hc
          linarith

/-- C7 (amended): with `release_start_phase = 1/2`, `loop_point = 1/4`,
and a per-sample phase delta `d = 1/len_samples` that does not exceed the
loop size (`d ≤ 1/4`), the gated ADSR phase after `n` `get_sample` calls
stays in `[0, 1/2)`, equals `n·d` until the release point is crossed
(`n·d ≥ 1/2`), and lies in `[1/4, 1/2)` from then on; in particular it
never reaches `1` and the gate status stays `Gated`.  (Without the bound
on `d` the claim is false: the `trunc(overflow/loop_size)` rewrap adds a
whole integer, see the counterexample.) -/
theorem C7_loop_amended (d : ℚ) (hd0 : 0 < d) (hd4 : d ≤ 1/4) (n : ℕ) :
    ((fun st => (Adsr.getSample st).1)^[n] (c7Adsr d)).gateStatus = .Gated ∧
    0 ≤ ((fun st => (Adsr.getSample st).1)^[n] (c7Adsr d)).phase ∧
    ((fun st => (Adsr.getSample st).1)^[n] (c7Adsr d)).phase < 1/2 ∧
    ((n : ℚ) * d < 1/2 →
      ((fun st => (Adsr.getSample st).1)^[n] (c7Adsr d)).phase = n * d) ∧
    (1/2 ≤ (n : ℚ) * d →
      1/4 ≤ ((fun st => (Adsr.getSample st).1)^[n] (c7Adsr d)).phase) := by
  rw [c7_phase_bridge]
  obtain ⟨h0, h2, heq, hge⟩ := c7next_iter d hd0 hd4 n
  exact ⟨rfl, h0, h2, heq, hge⟩

/-- C7 witness: with `d = 1/128`, after 70 samples (`70·d ≥ 1/2`, so the
release point has been crossed) the phase lies in `[1/4, 1/2)`. -/
theorem C7_loop_amended_witness :
    1/4 ≤ ((fun st => (Adsr.getSample st).1)^[70] (c7Adsr (1/128))).phase ∧
    ((fun st => (Adsr.getSample st).1)^[70] (c7Adsr (1/128))).phase < 1/2 :=
  ⟨(C7_loop_amended (1/128) (by norm_num) (by norm_num) 70).2.2.2.2 (by norm_num),
   (C7_loop_amended (1/128) (by norm_num) (by norm_num) 70).2.2.1⟩

/-- C7 (counterexample): with `len_samples = 2` (phase delta `1/2`) the
claim fails — after two `get_sample` calls from `gate()` (the release
point `1/2` was crossed on the first call), the phase is `5/4`: outside
`[1/4, 1/2)` and `≥ 1`, while still `Gated` and before any `ungate`.  The
rewrap `loop_start + trunc(overflow/loop_size)` added the whole integer
`1`. -/
theorem C7_loop_cex :
    ((fun st => (Adsr.getSample st).1)^[2] (c7Adsr (1/2))).gateStatus = .Gated ∧
    ((fun st => (Adsr.getSample st).1)^[2] (c7Adsr (1/2))).phase = 5/4 ∧
    ¬(((fun st => (Adsr.getSample st).1)^[2] (c7Adsr (1/2))).phase < 1/2) ∧
    1 ≤ ((fun st => (Adsr.getSample st).1)^[2] (c7Adsr (1/2))).phase := by
  with_unfolding_all decide

/-- A `render_frame` in the `GatedFrozen` state changes nothing. -/
theorem renderFrame_frozen_stable (a : Adsr) (h : a.gateStatus = .GatedFrozen) :
    a.renderFrame = a := by
  unfold Adsr.renderFrame
  rw [if_neg (by simp [h]), if_neg (by simp [h]), if_pos (Or.inl h)]

/-- The concrete C8 witness state: gated, at the release point, no loop
point, constant rendered table `3`. -/
def c8Adsr : Adsr :=
  { phase := 1/2
    gateStatus := .Gated
    releaseStartPhase := 1/2
    steps := c3Steps
    loopPoint := none
    rendered := fun _ => 3
    curFrameOutput := List.replicate 128 0
    lenSamples := 128
    cachedPhaseDiffPerSample := 1/128 }

/-- C8: with no loop point, once `phase ≥ release_start_phase` while
`Gated`, the next `render_frame` fills all 128 slots of
`cur_frame_output` with the single frozen value (the `get_sample` output
at the clamped release phase) and sets `gate_status = GatedFrozen`; every
subsequent `render_frame` leaves both the output buffer and the status
unchanged. -/
theorem C8_freeze (a : Adsr) (hg : a.gateStatus = .Gated) (hl : a.loopPoint = none)
    (hp : a.releaseStartPhase ≤ a.phase) :
    a.renderFrame.gateStatus = .GatedFrozen ∧
    a.renderFrame.curFrameOutput = List.replicate 128 (a.getSample).2 ∧
    (∀ n : ℕ, (Adsr.renderFrame^[n] a.renderFrame).curFrameOutput =
        a.renderFrame.curFrameOutput ∧
      (Adsr.renderFrame^[n] a.renderFrame).gateStatus = .GatedFrozen) := by
  have hrf : a.renderFrame =
      { (a.getSample).1 with
        curFrameOutput := List.replicate 128 (a.getSample).2,
        gateStatus := .GatedFrozen } := by
    unfold Adsr.renderFrame
    rw [if_pos ⟨hg, hl, hp⟩]
  refine ⟨by rw [hrf], by rw [hrf], ?_⟩
  intro n
  induction n with
  | zero =>
    refine ⟨rfl, ?_⟩
    rw [hrf]
    rfl
  | succ n ih =>
    rw [Function.iterate_succ_apply',
      renderFrame_frozen_stable _ ih.2]
    exact ih

/-- C8 witness: on the concrete state, the frozen value is `3`, the frame
is 128 copies of it, the status flips to `GatedFrozen`, and the output is
still the same after four further frames. -/
theorem C8_freeze_witness :
    (c8Adsr.getSample).2 = 3 ∧
    c8Adsr.renderFrame.gateStatus = .GatedFrozen ∧
    c8Adsr.renderFrame.curFrameOutput = List.replicate 128 3 ∧
    (Adsr.renderFrame^[4] c8Adsr.renderFrame).curFrameOutput = List.replicate 128 3 := by
  have h := C8_freeze c8Adsr rfl rfl (le_refl _)
  have hv : (c8Adsr.getSample).2 = 3 := by with_unfolding_all decide
  refine ⟨hv, h.1, ?_, ?_⟩
  · rw [h.2.1, hv]
  · rw [(h.2.2 4).1, h.2.1, hv]

/-! ## Compressor (`src/engine/compressor/src/lib.rs`)

`FRAME_SIZE = 128`, `MAX_LOOKAHEAD_SAMPLES = 2205`.  The transcendental
kernels `gain_to_db` (20·log₁₀), `db_to_gain` (10^(x/20)) and `f32::sqrt`
live outside `src/` and are passed as parameters `gainToDb`, `dbToGain`,
`sqrtQ`. -/

inductive SensingMethod where
  | Peak : SensingMethod
  | RMS : SensingMethod
deriving DecidableEq

/-- `detect_level_peak`: maximum of `|x|` over `lookahead_samples` ring
slots ending just before the sample being compressed.  The `old_max`
argument is accepted but unused (the fast path in the source is commented
out). -/
def detectLevelPeak (buf : CircularBuffer) (lookaheadSamples : ℤ)
    (sampleIxInFrame : ℕ) (oldMax : ℚ) : ℚ :=
  (List.range lookaheadSamples.toNat).foldl
    (fun m i =>
      let absSample := |buf.get (-lookaheadSamples - 128 + sampleIxInFrame + i)|
      if m < absSample then absSample else m) 0

/-- `detect_level_rms`: `sqrt(mean(x²))` over the same window. -/
def detectLevelRms (sqrtQ : ℚ → ℚ) (buf : CircularBuffer) (lookaheadSamples : ℤ)
    (sampleIxInFrame : ℕ) : ℚ :=
  let sum := (List.range lookaheadSamples.toNat).foldl
    (fun s i =>
      s + buf.get (-lookaheadSamples - 128 + sampleIxInFrame + i) *
            buf.get (-lookaheadSamples - 128 + sampleIxInFrame + i)) 0
  sqrtQ (sum / lookaheadSamples)

/-- `compute_attack_coefficient`. -/
def computeAttackCoefficient (attackTimeMs : ℚ) : ℚ :=
  1 - 1 / (attackTimeMs * (1/1000) * 44100)

/-- `compute_release_coefficient`. -/
def computeReleaseCoefficient (releaseTimeMs : ℚ) : ℚ :=
  1 / (releaseTimeMs * (1/1000) * 44100)

/-- The loop-carried local state of `Compressor::apply` (the `mut`
variables of the per-frame loop). -/
structure CompLoopState where
  bottomEnvelope : ℚ
  topEnvelope : ℚ
  detectedLevelDb : ℚ
  detectedLevelLinear : ℚ
  targetVolumeDb : ℚ
  gain : ℚ
deriving DecidableEq

/-- One iteration of the `for i in 0..FRAME_SIZE` loop of
`Compressor::apply`: silence gate (`input < 1e-4` passes the sample
through untouched), level detection over the hard-coded 5800-sample
window, envelope update, the `detected_dB < -60` gate, dual-curve gain,
and accumulation `output[i] += input · gain · makeup_gain` with
`makeup_gain = 1`. -/
def compApplySample (sqrtQ gainToDb dbToGain : ℚ → ℚ)
    (inputBuf : CircularBuffer) (lookaheadSamples : ℤ)
    (attackCoefficient releaseCoefficient : ℚ)
    (bottomThresholdDb topThresholdDb bottomRatio topRatio : ℚ)
    (sensingMethod : SensingMethod) (i : ℕ)
    (st : CompLoopState) (outputBuf : List ℚ) : CompLoopState × List ℚ :=
  let input := inputBuf.get (-lookaheadSamples - 128 + i)
  if input < 1/10000 then
    (st, outputBuf.set i (outputBuf.getD i 0 + input))
  else
    let detectedLevelLinear :=
      match sensingMethod with
      | .Peak => detectLevelPeak inputBuf 5800 i st.detectedLevelLinear
      | .RMS => detectLevelRms sqrtQ inputBuf 5800 i
    let detectedLevelDb := gainToDb detectedLevelLinear
    let topEnvelope :=
      if st.topEnvelope < detectedLevelDb then
        attackCoefficient * st.topEnvelope + (1 - attackCoefficient) * detectedLevelDb
      else
        releaseCoefficient * st.topEnvelope + (1 - releaseCoefficient) * detectedLevelDb
    let bottomEnvelope :=
      if detectedLevelDb < st.bottomEnvelope then
        attackCoefficient * st.bottomEnvelope + (1 - attackCoefficient) * detectedLevelDb
      else
        releaseCoefficient * st.bottomEnvelope + (1 - releaseCoefficient) * detectedLevelDb
    if detectedLevelDb < -60 then
      ({ bottomEnvelope := bottomEnvelope, topEnvelope := topEnvelope,
         detectedLevelDb := detectedLevelDb, detectedLevelLinear := detectedLevelLinear,
         targetVolumeDb := detectedLevelDb, gain := st.gain },
       outputBuf.set i (outputBuf.getD i 0 + input))
    else
      let gt :=
        if topThresholdDb < topEnvelope then
          let t := topThresholdDb + (topEnvelope - topThresholdDb) / topRatio
          (dbToGain (t - detectedLevelDb), t)
        else if bottomEnvelope < bottomThresholdDb then
          let t := bottomThresholdDb - (bottomThresholdDb - bottomEnvelope) * bottomRatio
          (dbToGain (t - detectedLevelDb), t)
        else ((1 : ℚ), topEnvelope)
      ({ bottomEnvelope := bottomEnvelope, topEnvelope := topEnvelope,
         detectedLevelDb := detectedLevelDb, detectedLevelLinear := detectedLevelLinear,
         targetVolumeDb := gt.2, gain := gt.1 },
       outputBuf.set i (outputBuf.getD i 0 + input * gt.1 * 1))

/-- The per-band `Compressor` struct. -/
structure Compressor where
  bottomEnvelope : ℚ
  topEnvelope : ℚ
  lastDetectedLevelLinear : ℚ
  lastOutputLevelDb : ℚ
  lastAppliedGain : ℚ

/-- `Compressor::apply`: the 128-iteration fold of `compApplySample`,
with the loop state seeded from the struct fields, and the struct fields
written back at the end; returns the updated struct, the accumulated
output frame and the returned `detected_level_db`. -/
def Compressor.apply (sqrtQ gainToDb dbToGain : ℚ → ℚ) (c : Compressor)
    (inputBuf : CircularBuffer) (lookaheadSamples : ℕ) (outputBuf : List ℚ)
    (attackMs releaseMs bottomThresholdDb topThresholdDb bottomRatio topRatio
      knee : ℚ) (sensingMethod : SensingMethod) : Compressor × List ℚ × ℚ :=
  let aC := computeAttackCoefficient attackMs
  let rC := computeReleaseCoefficient releaseMs
  let st0 : CompLoopState :=
    { bottomEnvelope := c.bottomEnvelope, topEnvelope := c.topEnvelope,
      detectedLevelDb := c.lastOutputLevelDb,
      detectedLevelLinear := c.lastDetectedLevelLinear,
      targetVolumeDb := c.lastOutputLevelDb, gain := 1 }
  let r := (List.range 128).foldl
    (fun acc i =>
      compApplySample sqrtQ gainToDb dbToGain inputBuf (lookaheadSamples : ℤ)
        aC rC bottomThresholdDb topThresholdDb bottomRatio topRatio
        sensingMethod i acc.1 acc.2)
    (st0, outputBuf)
  ({ bottomEnvelope := r.1.bottomEnvelope, topEnvelope := r.1.topEnvelope,
     lastDetectedLevelLinear := r.1.detectedLevelLinear,
     lastOutputLevelDb := r.1.targetVolumeDb, lastAppliedGain := r.1.gain },
   r.2, r.1.detectedLevelDb)

/-- C4: in `Compressor::apply`, whenever the magnitude of the sample read
from the lookahead ring is below `1e-4`, that loop iteration adds the raw
input to the output accumulator and changes nothing else: no level
detection, no envelope update, no gain change (the code's test
`input < 0.0001` is implied by `|input| < 0.0001`). -/
theorem C4_silence_gate (sqrtQ gainToDb dbToGain : ℚ → ℚ)
    (inputBuf : CircularBuffer) (lookaheadSamples : ℤ)
    (aC rC bT tT bR tR : ℚ) (sm : SensingMethod) (i : ℕ)
    (st : CompLoopState) (out : List ℚ)
    (h : |inputBuf.get (-lookaheadSamples - 128 + i)| < 1/10000) :
    compApplySample sqrtQ gainToDb dbToGain inputBuf lookaheadSamples
        aC rC bT tT bR tR sm i st out =
      (st, out.set i (out.getD i 0 + inputBuf.get (-lookaheadSamples - 128 + i))) := by
  unfold compApplySample
  rw [if_pos (lt_of_le_of_lt (le_abs_self _) h)]

/-- The freshly zeroed 2205-slot lookahead ring used by the compressor
witnesses. -/
def c4Buf : CircularBuffer := CircularBuffer.new 2205

/-- A zeroed compressor loop state (`gain` starts at 1, as in
`Compressor::apply`). -/
def c4State : CompLoopState :=
  { bottomEnvelope := 0, topEnvelope := 0, detectedLevelDb := 0,
    detectedLevelLinear := 0, targetVolumeDb := 0, gain := 1 }

/-- C4 witness: on a zeroed ring (all reads are `0`, magnitude below
`1e-4`) the loop body is the pure pass-through. -/
theorem C4_silence_gate_witness :
    |c4Buf.get (-512 - 128 + 0)| < 1/10000 ∧
    compApplySample (fun x => x) (fun x => x) (fun x => x) c4Buf 512
        (1/2) (1/3) (-40) (-10) (1/2) 4 .RMS 0 c4State (List.replicate 128 0) =
      (c4State, (List.replicate 128 0).set 0
        ((List.replicate 128 0).getD 0 0 + c4Buf.get (-512 - 128 + 0))) := by
  have h : |c4Buf.get (-512 - 128 + 0)| < 1/10000 := by
    with_unfolding_all decide
  exact ⟨h, C4_silence_gate (fun x => x) (fun x => x) (fun x => x) c4Buf 512
    (1/2) (1/3) (-40) (-10) (1/2) 4 .RMS 0 c4State (List.replicate 128 0) h⟩

/-- C6: whenever the silence gate does not fire, the level-detection
window used by the loop body of `Compressor::apply` is the hard-coded
constant `5800` — for both sensing methods and for **every**
caller-supplied `lookaheadSamples`, which enters the body only through
the ring read offset `-lookahead_samples - 128 + i`. -/
theorem C6_detect_window_5800 (sqrtQ gainToDb dbToGain : ℚ → ℚ)
    (inputBuf : CircularBuffer) (lookaheadSamples : ℤ)
    (aC rC bT tT bR tR : ℚ) (i : ℕ) (st : CompLoopState) (out : List ℚ)
    (h : ¬ inputBuf.get (-lookaheadSamples - 128 + i) < 1/10000) :
    (compApplySample sqrtQ gainToDb dbToGain inputBuf lookaheadSamples
        aC rC bT tT bR tR .RMS i st out).1.detectedLevelLinear =
      detectLevelRms sqrtQ inputBuf 5800 i ∧
    (compApplySample sqrtQ gainToDb dbToGain inputBuf lookaheadSamples
        aC rC bT tT bR tR .Peak i st out).1.detectedLevelLinear =
      detectLevelPeak inputBuf 5800 i st.detectedLevelLinear := by
  constructor
  · simp only [compApplySample, if_neg h]
    split <;> simp
  · simp only [compApplySample, if_neg h]
    split <;> simp

/-- C6 witness: a constant-`1` ring with `lookahead = 7`; the silence
gate does not fire and the detected level is the 5800-window RMS. -/
def c6Buf : CircularBuffer :=
  { size := 2205, buffer := fun _ => 1, head := 0 }

/-- C6 witness instance. -/
theorem C6_detect_window_5800_witness :
    ¬ c6Buf.get (-7 - 128 + 0) < 1/10000 ∧
    (compApplySample (fun x => x) (fun x => x) (fun x => x) c6Buf 7
        (1/2) (1/3) (-40) (-10) (1/2) 4 .RMS 0 c4State
        (List.replicate 128 0)).1.detectedLevelLinear =
      detectLevelRms (fun x => x) c6Buf 5800 0 := by
  have h : ¬ c6Buf.get (-7 - 128 + 0) < 1/10000 := by
    with_unfolding_all decide
  exact ⟨h, (C6_detect_window_5800 (fun x => x) (fun x => x) (fun x => x) c6Buf 7
    (1/2) (1/3) (-40) (-10) (1/2) 4 0 c4State (List.replicate 128 0) h).1⟩

/-! ## MoogFilter (`src/engine/wavetable/src/fm/effects/moog.rs`)

`SAMPLE_RATE = 44_100`; the oversampled integration step divides by
`2·(2·SAMPLE_RATE) = 176_400`.  The saturator is `fastapprox`'s fast
`tanh` (outside `src/`), passed in as the parameter `th`. -/

/-- The ladder state: four stage voltages, their previous derivatives,
their saturated values, and the `last_sample` memory used by the 2×
oversampling midpoint. -/
structure MoogState where
  v0 : ℚ
  v1 : ℚ
  v2 : ℚ
  v3 : ℚ
  dv0 : ℚ
  dv1 : ℚ
  dv2 : ℚ
  dv3 : ℚ
  tv0 : ℚ
  tv1 : ℚ
  tv2 : ℚ
  tv3 : ℚ
  lastSample : ℚ
deriving DecidableEq

/-- The zeroed state `MoogFilter::new` starts from. -/
def moogZeroState : MoogState :=
  { v0 := 0, v1 := 0, v2 := 0, v3 := 0, dv0 := 0, dv1 := 0, dv2 := 0, dv3 := 0,
    tv0 := 0, tv1 := 0, tv2 := 0, tv3 := 0, lastSample := 0 }

/-- One oversample sub-step of the ladder (the body shared by `apply` and
`apply_all`): clamp the parameters, compute `g`, then update the four
stages in sequence with trapezoidal integration. -/
def moogSubstep (th : ℚ → ℚ) (st : MoogState)
    (cutoff resonance drive s : ℚ) : MoogState :=
  let c := clamp 1 22100 cutoff
  let r := clamp 0 20 resonance
  let x := (pi32 * c) / 88200
  let g := 4 * pi32 * moogVT * c * (1 - x) / (1 + x)
  let dV0 := -g * (th ((drive * s + r * st.v3) / (2 * moogVT)) + st.tv0)
  let v0 := st.v0 + (dV0 + st.dv0) / 176400
  let tv0 := th (v0 / (2 * moogVT))
  let dV1 := g * (tv0 - st.tv1)
  let v1 := st.v1 + (dV1 + st.dv1) / 176400
  let tv1 := th (v1 / (2 * moogVT))
  let dV2 := g * (tv1 - st.tv2)
  let v2 := st.v2 + (dV2 + st.dv2) / 176400
  let tv2 := th (v2 / (2 * moogVT))
  let dV3 := g * (tv2 - st.tv3)
  let v3 := st.v3 + (dV3 + st.dv3) / 176400
  let tv3 := th (v3 / (2 * moogVT))
  { v0 := v0, v1 := v1, v2 := v2, v3 := v3,
    dv0 := dV0, dv1 := dV1, dv2 := dV2, dv3 := dV3,
    tv0 := tv0, tv1 := tv1, tv2 := tv2, tv3 := tv3,
    lastSample := st.lastSample }

/-- `MoogFilter::apply` (one sample): the `j = 0` oversample step mixes
the previous **raw input** (`last_sample`) with the current input, the
`j = 1` step uses the input itself; the output is the mean of the two
stage-3 voltages, and `last_sample` is set to the raw input. -/
def moogApply (th : ℚ → ℚ) (st : MoogState)
    (cutoff resonance drive sample : ℚ) : MoogState × ℚ :=
  let st1 := moogSubstep th st cutoff resonance drive (mix (1/2) st.lastSample sample)
  let st2 := moogSubstep th st1 cutoff resonance drive sample
  ({ st2 with lastSample := sample }, (st1.v3 + st2.v3) / 2)

/-- `apply` iterated in index order over a frame, with `last_sample`
carried through between calls (the claimed reference semantics of
`apply_all`). -/
def moogIterOutputs (th : ℚ → ℚ) (st : MoogState) :
    List ℚ → List ℚ → List ℚ → List ℚ → List ℚ
  | c :: cs, r :: rs, d :: ds, x :: xs =>
    let a := moogApply th st c r d x
    a.2 :: moogIterOutputs th a.1 cs rs ds xs
  | _, _, _, _ => []

/-- The loop of `MoogFilter::apply_all`: since `samples` is overwritten in
place and iteration `i > 0` reads `samples[i-1]` *after* the overwrite,
the mixing partner `last` is the previous **output**, and it is also what
`self.last_sample` receives at the end. -/
def moogApplyAllGo (th : ℚ → ℚ) (st : MoogState) (last : ℚ) :
    List ℚ → List ℚ → List ℚ → List ℚ → List ℚ
  | c :: cs, r :: rs, d :: ds, x :: xs =>
    let st1 := moogSubstep th st c r d (mix (1/2) last x)
    let st2 := moogSubstep th st1 c r d x
    let o := (st1.v3 + st2.v3) / 2
    o :: moogApplyAllGo th st2 o cs rs ds xs
  | _, _, _, _ => []

/-- `MoogFilter::apply_all` on a frame (outputs only). -/
def moogApplyAll (th : ℚ → ℚ) (st : MoogState)
    (cs rs ds xs : List ℚ) : List ℚ :=
  moogApplyAllGo th st st.lastSample cs rs ds xs

/-- C1: `apply_all` is **not** numerically identical to 128 iterated
`apply` calls.  With the identity saturator, a zeroed filter, constant
params `(cutoff, resonance, drive) = (100, 0, 1)` and the 128-sample frame
`[1, 0, …, 0]`, the two paths already differ on output sample 1:
`apply_all` mixes its `j = 0` oversample sub-sample against `samples[0]`
*after* it was overwritten with the sample-0 output, while iterated
`apply` mixes against the raw input `1` held in `last_sample`. -/
theorem C1_moog_applyAll_diverges :
    (moogApplyAll (fun x => x) moogZeroState (List.replicate 128 100)
        (List.replicate 128 0) (List.replicate 128 1)
        (1 :: List.replicate 127 0)).get? 1 ≠
      (moogIterOutputs (fun x => x) moogZeroState (List.replicate 128 100)
        (List.replicate 128 0) (List.replicate 128 1)
        (1 :: List.replicate 127 0)).get? 1 := by
  with_unfolding_all decide

/-- `compute_higher_order_biquad_q_factors`
(`src/engine/dsp/src/filters/biquad.rs`): `none` models the fail-fast
panic for an odd or zero order; otherwise one dB-value per biquad stage,
`linear_to_db(1 / (2·cos(π/(2·order) + i·π/order)))` for
`i ∈ [0, order/2)`.  Modelled from the spec: `linear_to_db_checked`
(`20·log₁₀`, §4.3's formula) and `f32::cos` live outside `src/`, so they
are the abstract parameters `linToDb` and `cosQ`; `π` is the `f32`
constant `pi32`. -/
def computeHigherOrderBiquadQFactors (linToDb cosQ : ℚ → ℚ) (order : ℕ) :
    Option (List ℚ) :=
  if order % 2 ≠ 0 ∨ order = 0 then none
  else some ((List.range (order / 2)).map (fun i : ℕ =>
    linToDb (1 / (2 * cosQ (pi32 / order / 2 + pi32 / order * (i : ℚ))))))

/-- The ideal value of the order-2 Q entry,
`20·log₁₀(1/(2·cos(π/4))) = −10·log₁₀ 2`, is negative. -/
theorem idealQ2_negative :
    20 * Real.logb 10 (1 / (2 * Real.cos (Real.pi / 4))) < 0 := by
  have hc : Real.cos (Real.pi / 4) = Real.sqrt 2 / 2 := Real.cos_pi_div_four
  have h2pos : (0:ℝ) < Real.sqrt 2 := Real.sqrt_pos.mpr (by norm_num)
  have h1lt : (1:ℝ) < Real.sqrt 2 := by
    have := Real.sqrt_lt_sqrt (by norm_num : (0:ℝ) ≤ 1) (by norm_num : (1:ℝ) < 2)
    simpa using this
  have hx : 1 / (2 * Real.cos (Real.pi / 4)) = 1 / Real.sqrt 2 := by
    rw [hc]
    ring_nf
  have hx0 : 0 < 1 / Real.sqrt 2 := by positivity
  have hx1 : 1 / Real.sqrt 2 < 1 := by
    rw [div_lt_one h2pos]
    exact h1lt
  have hlog : Real.logb 10 (1 / (2 * Real.cos (Real.pi / 4))) < 0 := by
    rw [hx]
    exact Real.logb_neg (by norm_num) hx0 hx1
  linarith

/-- C9 (amended): the function fails fast exactly on odd or zero orders;
for even positive order it returns `order/2` values; for `order = 2` the
single entry is `linear_to_db(1/(2·cos(π/4)))` — whose ideal value
`20·log₁₀(1/(2·cos(π/4))) = −10·log₁₀ 2 ≈ −3.0103` dB is **negative**,
not the `+3.0103` the claim states. -/
theorem C9_q_factors_amended :
    (∀ (l c : ℚ → ℚ) (k : ℕ), (k % 2 ≠ 0 ∨ k = 0) →
      computeHigherOrderBiquadQFactors l c k = none) ∧
    (∀ (l c : ℚ → ℚ) (k : ℕ), k % 2 = 0 → k ≠ 0 →
      (computeHigherOrderBiquadQFactors l c k).map List.length = some (k / 2)) ∧
    (∀ (l c : ℚ → ℚ),
      computeHigherOrderBiquadQFactors l c 2 = some [l (1 / (2 * c (pi32 / 4)))]) ∧
    20 * Real.logb 10 (1 / (2 * Real.cos (Real.pi / 4))) < 0 := by
  refine ⟨fun l c k h => ?_, fun l c k h1 h2 => ?_, fun l c => ?_, ?_⟩
  · rw [computeHigherOrderBiquadQFactors, if_pos h]
  · rw [computeHigherOrderBiquadQFactors, if_neg (by omega)]
    simp only [Option.map_some', List.length_map, List.length_range]
  · rw [computeHigherOrderBiquadQFactors, if_neg (by omega),
      (by rfl : List.range (2 / 2) = [0]), List.map_cons, List.map_nil]
    have harg : pi32 / ((2:ℕ):ℚ) / 2 + pi32 / ((2:ℕ):ℚ) * ((0:ℕ):ℚ) = pi32 / 4 := by
      push_cast
      ring
    rw [harg]
  · exact idealQ2_negative

/-- C9 witness: order `3` fails fast; order `16` yields eight Q values. -/
theorem C9_q_factors_amended_witness :
    computeHigherOrderBiquadQFactors (fun x => x) (fun x => x) 3 = none ∧
    (computeHigherOrderBiquadQFactors (fun x => x) (fun x => x) 16).map
      List.length = some 8 := by
  constructor
  · exact C9_q_factors_amended.1 (fun x => x) (fun x => x) 3 (Or.inl (by norm_num))
  · have := C9_q_factors_amended.2.1 (fun x => x) (fun x => x) 16 (by norm_num)
      (by norm_num)
    simpa using this

/-- C9 (counterexample): for `order = 2` there is indeed exactly one
entry, but the claimed numeric value is wrong by its sign: the ideal
entry `20·log₁₀(1/(2·cos(π/4)))` is not within `±1` of `+3.0103` dB (it
equals `≈ −3.0103` dB). -/
theorem C9_q_factors_cex :
    (computeHigherOrderBiquadQFactors (fun x => x) (fun x => x) 2).map List.length =
      some 1 ∧
    ¬ |20 * Real.logb 10 (1 / (2 * Real.cos (Real.pi / 4))) - 30103/10000| ≤ 1 := by
  constructor
  · rw [computeHigherOrderBiquadQFactors, if_neg (by omega)]
    simp only [Option.map_some', List.length_map, List.length_range]
  · have hneg := idealQ2_negative
    rw [abs_le]
    push_neg
    intro h1
    exfalso
    linarith
